import Mathlib

/-!
# Verification of `conda-replicate` (`conda_local`)

A shallow embedding, in Lean 4, of the `conda_local` package (files
`src/conda_local/api.py` and `src/conda_local/external.py`), together with
proofs about its documented behaviour.

Modelling conventions:
* Python package records become the `PackageRecord` structure; bytes become
  `List Nat`; filesystem paths become `List String` (one entry per component).
* The external conda / conda-build / requests ecosystem (channel queries,
  HTTP, hashing, the index builder) is abstracted into a `CondaEnv` record of
  functions; the code under verification is everything written on top of it.
* Python exceptions become `Except PyError`; Python sets are modelled by
  deduplicated lists, with properties stated via membership.
* The modules `conda_local.grouping` and `conda_local.deps`, and the names
  `iter_channels`, `download_patch_instructions` and `get_current_subdirs`
  imported by `api.py`, are not present in the source tree; those parts are
  modelled from the specification and are marked `Modelled from the spec:` in
  their doc comments.  Everything else is translated from the source.
-/

namespace CondaLocal

/-- A conda package record (`conda.exports.PackageRecord`): the metadata that
describes one distributable package artifact. -/
structure PackageRecord where
  subdir : String
  name : String
  version : String
  build : String
  build_number : Nat
  fn : String
  url : String
  sha256 : String
  size : Nat
  channel : String
deriving DecidableEq, Repr

/-- A Python argument that may be a single string or a list of strings
(the `OneOrMoreStrings` shape of `conda_local._typing`). -/
inductive PyVal
  | str (s : String)
  | list (l : List String)
deriving DecidableEq, Repr

/-- The Python exceptions that the embedded code can raise. -/
inductive PyError
  /-- `conda.exceptions.UnavailableInvalidChannel`, raised while enumerating
  the records of an unreadable or invalid channel. -/
  | unavailableInvalidChannel
  /-- a non-success HTTP status, raised by `response.raise_for_status()`. -/
  | httpStatus (code : Nat)
  /-- `FileNotFoundError`, raised by `shutil.copy` / `tarfile.add` when the
  path (or the destination's directory) does not exist. -/
  | fileNotFound (path : List String)
deriving DecidableEq, Repr

/-! ## The grouping utility

Modelled from the spec: the module `conda_local.grouping` (the `Grouping`
ordered multi-map and `groupby`) is not under `src/`; §4.2 of the
specification describes `groupby(items, key_function)` as: for each item,
compute its key and append the item to the bucket for that key, creating the
bucket on first use; bucket order is insertion order; no sorting or
deduplication; an absent key yields an empty result. -/

/-- One step of `groupby`: append `a` to the bucket of key `k`, creating the
bucket at the end on first use. -/
def addToBucket [DecidableEq κ] (g : List (κ × List α)) (k : κ) (a : α) :
    List (κ × List α) :=
  match g with
  | [] => [(k, [a])]
  | (k', b) :: rest =>
      if k' = k then (k', b ++ [a]) :: rest else (k', b) :: addToBucket rest k a

/-- Modelled from the spec: `conda_local.grouping.groupby` (see the section
comment above). -/
def groupby [DecidableEq κ] (items : List α) (key : α → κ) : List (κ × List α) :=
  items.foldl (fun g a => addToBucket g (key a) a) []

/-- The key list of a grouping (`dict.keys()`, in insertion order). -/
def keys (g : List (κ × List α)) : List κ := g.map Prod.fst

/-- Indexed bucket retrieval of a grouping; an absent key yields `[]`. -/
def bucket [DecidableEq κ] : List (κ × List α) → κ → List α
  | [], _ => []
  | (k', b) :: rest, k => if k' = k then b else bucket rest k

theorem bucket_addToBucket [DecidableEq κ] (g : List (κ × List α)) (k k' : κ) (a : α) :
    bucket (addToBucket g k a) k' =
      if k = k' then bucket g k' ++ [a] else bucket g k' := by
  induction g with
  | nil =>
      by_cases h : k = k' <;> simp [addToBucket, bucket, h]
  | cons p rest ih =>
      obtain ⟨k₀, b⟩ := p
      by_cases h₀ : k₀ = k
      · subst h₀
        by_cases h : k₀ = k' <;> simp [addToBucket, bucket, h]
      · by_cases h : k₀ = k'
        · subst h
          have hk : ¬ k = k₀ := fun hh => h₀ hh.symm
          simp [addToBucket, bucket, h₀, hk]
        · simp [addToBucket, bucket, h₀, h, ih]

theorem mem_keys_addToBucket [DecidableEq κ] (g : List (κ × List α)) (k k' : κ) (a : α) :
    k' ∈ keys (addToBucket g k a) ↔ k' ∈ keys g ∨ k' = k := by
  induction g with
  | nil => simp [addToBucket, keys]
  | cons p rest ih =>
      obtain ⟨k₀, b⟩ := p
      simp only [keys, List.map_cons, List.mem_cons] at ih ⊢
      by_cases h₀ : k₀ = k
      · subst h₀
        show k' ∈ List.map Prod.fst (addToBucket ((k₀, b) :: rest) k₀ a) ↔ _
        rw [addToBucket, if_pos rfl]
        simp only [List.map_cons, List.mem_cons]
        tauto
      · show k' ∈ List.map Prod.fst (addToBucket ((k₀, b) :: rest) k a) ↔ _
        rw [addToBucket, if_neg h₀]
        simp only [List.map_cons, List.mem_cons]
        rw [show (addToBucket rest k a).map Prod.fst = keys (addToBucket rest k a) from rfl] at ih ⊢
        rw [ih]
        tauto

theorem bucket_groupby_aux [DecidableEq κ] (key : α → κ) (k : κ) :
    ∀ (l : List α) (g : List (κ × List α)),
      bucket (l.foldl (fun g a => addToBucket g (key a) a) g) k =
        bucket g k ++ l.filter (fun a => decide (key a = k)) := by
  intro l
  induction l with
  | nil => intro g; simp
  | cons a t ih =>
      intro g
      rw [List.foldl_cons, ih, bucket_addToBucket]
      by_cases h : key a = k <;> simp [h]

/-- The bucket of `groupby l key` at `k` is exactly the sublist of `l` whose
key is `k`, in order. -/
theorem bucket_groupby [DecidableEq κ] (key : α → κ) (k : κ) (l : List α) :
    bucket (groupby l key) k = l.filter (fun a => decide (key a = k)) := by
  rw [groupby, bucket_groupby_aux]
  simp [bucket]

theorem mem_bucket_groupby [DecidableEq κ] (key : α → κ) (k : κ) (l : List α) (a : α) :
    a ∈ bucket (groupby l key) k ↔ a ∈ l ∧ key a = k := by
  simp [bucket_groupby, List.mem_filter]

theorem mem_keys_foldl [DecidableEq κ] (key : α → κ) (k : κ) :
    ∀ (l : List α) (g : List (κ × List α)),
      k ∈ keys (l.foldl (fun g a => addToBucket g (key a) a) g) ↔
        k ∈ keys g ∨ ∃ a ∈ l, key a = k := by
  intro l
  induction l with
  | nil => intro g; simp
  | cons a t ih =>
      intro g
      rw [List.foldl_cons, ih, mem_keys_addToBucket]
      simp only [List.mem_cons]
      constructor
      · rintro ((h | h) | ⟨b, hb, hk⟩)
        · exact Or.inl h
        · exact Or.inr ⟨a, Or.inl rfl, h.symm⟩
        · exact Or.inr ⟨b, Or.inr hb, hk⟩
      · rintro (h | ⟨b, (hb | hb), hk⟩)
        · exact Or.inl (Or.inl h)
        · exact Or.inl (Or.inr (hb ▸ hk.symm))
        · exact Or.inr ⟨b, hb, hk⟩

/-- A key is present in `groupby l key` exactly when some item of `l` carries it. -/
theorem mem_keys_groupby [DecidableEq κ] (key : α → κ) (k : κ) (l : List α) :
    k ∈ keys (groupby l key) ↔ ∃ a ∈ l, key a = k := by
  rw [groupby, mem_keys_foldl]
  simp [keys]

/-! ## `external.compare_records` -/

/-- The channel-insensitive identity key used by `compare_records`
(`external.py`, inner function `no_channel_key`). -/
def no_channel_key (record : PackageRecord) :
    String × String × String × String × Nat :=
  (record.subdir, record.name, record.version, record.build, record.build_number)

/-- `external.compare_records(left, right)`: group both sides by
`no_channel_key` and return the records whose key exists on only one side
(`left - right`, then `right - left`).  The Python set comprehensions are
modelled by deduplicated lists; properties are stated via membership. -/
def compare_records (left right : List PackageRecord) :
    List PackageRecord × List PackageRecord :=
  let left_group := groupby left no_channel_key
  let right_group := groupby right no_channel_key
  let only_in_left :=
    (((keys left_group).filter (fun k => decide (k ∉ keys right_group))).flatMap
      (fun k => bucket left_group k)).dedup
  let only_in_right :=
    (((keys right_group).filter (fun k => decide (k ∉ keys left_group))).flatMap
      (fun k => bucket right_group k)).dedup
  (only_in_left, only_in_right)

theorem mem_compare_records_left (left right : List PackageRecord) (r : PackageRecord) :
    r ∈ (compare_records left right).1 ↔
      r ∈ left ∧ ∀ r' ∈ right, no_channel_key r' ≠ no_channel_key r := by
  simp only [compare_records, List.mem_dedup, List.mem_flatMap, List.mem_filter,
    mem_bucket_groupby, mem_keys_groupby, decide_eq_true_eq]
  constructor
  · rintro ⟨k, ⟨_, hnot⟩, hr, hk⟩
    subst hk
    exact ⟨hr, fun r' hr' h => hnot ⟨r', hr', h⟩⟩
  · rintro ⟨hr, hnone⟩
    exact ⟨no_channel_key r, ⟨⟨r, hr, rfl⟩,
      fun ⟨r', hr', h⟩ => hnone r' hr' h⟩, hr, rfl⟩

theorem mem_compare_records_right (left right : List PackageRecord) (r : PackageRecord) :
    r ∈ (compare_records left right).2 ↔
      r ∈ right ∧ ∀ l' ∈ left, no_channel_key l' ≠ no_channel_key r := by
  simp only [compare_records, List.mem_dedup, List.mem_flatMap, List.mem_filter,
    mem_bucket_groupby, mem_keys_groupby, decide_eq_true_eq]
  constructor
  · rintro ⟨k, ⟨_, hnot⟩, hr, hk⟩
    subst hk
    exact ⟨hr, fun l' hl' h => hnot ⟨l', hl', h⟩⟩
  · rintro ⟨hr, hnone⟩
    exact ⟨no_channel_key r, ⟨⟨r, hr, rfl⟩,
      fun ⟨l', hl', h⟩ => hnone l' hl' h⟩, hr, rfl⟩

/-! ## A model of the filesystem

Paths are lists of components; a filesystem holds a finite association of
file paths to byte contents plus the set of existing directories.  The root
(the empty path) always counts as an existing directory. -/

/-- A finite filesystem: file contents by path, plus existing directories. -/
structure FileSystem where
  files : List (List String × List Nat)
  dirs : List (List String)
deriving DecidableEq, Repr

/-- The content of the file at `p`, if it exists. -/
def FileSystem.read (fs : FileSystem) (p : List String) : Option (List Nat) :=
  (fs.files.find? (fun q => decide (q.1 = p))).map Prod.snd

/-- Create or overwrite the file at `p` with content `c`. -/
def FileSystem.write (fs : FileSystem) (p : List String) (c : List Nat) : FileSystem :=
  { fs with files := (p, c) :: fs.files.filter (fun q => decide (q.1 ≠ p)) }

/-- Whether the directory `p` exists (the root `[]` always does). -/
def FileSystem.hasDir (fs : FileSystem) (p : List String) : Bool :=
  p.isEmpty || decide (p ∈ fs.dirs)

/-- All the nonempty ancestors of a path, the path itself included. -/
def ancestors (p : List String) : List (List String) :=
  (List.range p.length).map (fun i => p.take (i + 1))

/-- `Path.mkdir(parents=True, exist_ok=True)`: create the directory `p` and
every ancestor. -/
def FileSystem.mkdirParents (fs : FileSystem) (p : List String) : FileSystem :=
  { fs with dirs := fs.dirs ∪ ancestors p }

theorem FileSystem.read_write_self (fs : FileSystem) (p : List String) (c : List Nat) :
    (fs.write p c).read p = some c := by
  simp [FileSystem.read, FileSystem.write, List.find?]

theorem find?_filter_ne (l : List (List String × List Nat)) (p q : List String)
    (h : q ≠ p) :
    (l.filter (fun x => decide (x.1 ≠ p))).find? (fun x => decide (x.1 = q)) =
      l.find? (fun x => decide (x.1 = q)) := by
  induction l with
  | nil => rfl
  | cons x t ih =>
      by_cases hxp : x.1 = p
      · have hxq : x.1 ≠ q := fun hh => h (hh.symm.trans hxp)
        rw [List.filter_cons, if_neg (by simp [hxp]),
          List.find?_cons_of_neg _ (by simp [hxq]), ih]
      · rw [List.filter_cons, if_pos (by simp [hxp])]
        by_cases hxq : x.1 = q
        · rw [List.find?_cons_of_pos _ (by simp [hxq]),
            List.find?_cons_of_pos _ (by simp [hxq])]
        · rw [List.find?_cons_of_neg _ (by simp [hxq]),
            List.find?_cons_of_neg _ (by simp [hxq]), ih]

theorem FileSystem.read_write_ne (fs : FileSystem) (p q : List String) (c : List Nat)
    (h : q ≠ p) : (fs.write p c).read q = fs.read q := by
  simp only [FileSystem.read, FileSystem.write]
  rw [List.find?_cons_of_neg _ (by simp; exact fun hh => h hh.symm),
    find?_filter_ne _ _ _ h]

theorem FileSystem.read_write (fs : FileSystem) (p q : List String) (c : List Nat) :
    (fs.write p c).read q = if q = p then some c else fs.read q := by
  by_cases h : q = p
  · subst h; simp [FileSystem.read_write_self]
  · simp [h, FileSystem.read_write_ne _ _ _ _ h]

theorem FileSystem.dirs_write (fs : FileSystem) (p : List String) (c : List Nat) :
    (fs.write p c).dirs = fs.dirs := rfl

theorem FileSystem.read_mkdirParents (fs : FileSystem) (p q : List String) :
    (fs.mkdirParents p).read q = fs.read q := rfl

theorem FileSystem.read_isSome_write (fs : FileSystem) (p q : List String) (c : List Nat)
    (h : (fs.read q).isSome) : ((fs.write p c).read q).isSome := by
  rw [FileSystem.read_write]
  by_cases hq : q = p <;> simp [hq, h]

theorem FileSystem.mem_dirs_mkdirParents (fs : FileSystem) (p d : List String)
    (h : d ∈ fs.dirs) : d ∈ (fs.mkdirParents p).dirs := by
  simp only [FileSystem.mkdirParents, List.mem_union_iff]
  exact Or.inl h

theorem FileSystem.self_mem_dirs_mkdirParents (fs : FileSystem) (p : List String)
    (h : p ≠ []) : p ∈ (fs.mkdirParents p).dirs := by
  simp only [FileSystem.mkdirParents, List.mem_union_iff]
  refine Or.inr ?_
  have hlen : 0 < p.length := List.length_pos.2 h
  refine List.mem_map.2 ⟨p.length - 1, ?_, ?_⟩
  · exact List.mem_range.2 (by omega)
  · rw [show p.length - 1 + 1 = p.length from by omega, List.take_length]

theorem FileSystem.hasDir_write (fs : FileSystem) (p d : List String) (c : List Nat) :
    (fs.write p c).hasDir d = fs.hasDir d := rfl

/-! ## The external conda / network environment

All boundary calls into `conda`, `conda_build` and `requests` are abstracted
into a record of functions; the embedded code is parameterised by it. -/

/-- The abstract interface to the external ecosystem. -/
structure CondaEnv where
  /-- The records obtained by consuming `iter_channels(channels, subdirs)`
  to the end.  Modelled from the spec: `iter_channels`, imported by `api.py`,
  is not under `src/`; §4.5 describes it as the full-channel iteration
  concatenated across channels (`iter_channel` of `external.py` with the
  universal spec).  `.error` is the `UnavailableInvalidChannel` raised while
  reading an unreadable or invalid channel; because the readers are Python
  generators, it is raised at consumption time, not at the call. -/
  iterChannels : List String → List String → Except PyError (List PackageRecord)
  /-- Modelled from the spec: `conda_local.deps.DependencyFinder` is not under
  `src/`; §4.4 describes `DependencyFinder(channels, subdirs).search(specs)`
  as returning the resolved dependency closure of package records (plus a
  graph, unused by `query`). -/
  finderSearch : List String → List String → List String → List PackageRecord
  /-- `get_current_subdirs()` / `get_default_subdirs()`: the platform's
  standard subdir list from the conda context. -/
  currentSubdirs : List String
  /-- `Path.resolve().as_uri()` on a local path. -/
  pathToUri : List String → String
  /-- `conda.models.channel.all_channel_urls([channel], subdirs=[subdir])[0]`. -/
  channelBaseUrl : String → String → String
  /-- Modelled from the spec: the channel-list resolution used by
  `download_patch_instructions` (not under `src/`); it reduces the channel
  list to the single channel whose patch instructions are fetched. -/
  primaryChannel : List String → String
  /-- `requests.get(url)`: `.ok` is the body of a success response, `.error`
  what `response.raise_for_status()` raises on a non-success status. -/
  httpGet : String → Except PyError (List Nat)
  /-- The bytes fetched by `conda.exports._download(url, …)`. -/
  downloadBytes : String → List Nat
  /-- `hashlib.sha256(bytes).hexdigest()`. -/
  sha256hex : List Nat → String
  /-- The bytes left in the file by the `packages_to_remove` branch of
  `fetch_patch_instructions` (`json.load`, append the filenames to
  `data["remove"]`, `seek(0)`, `json.dump`), as a function of the bytes
  written and the appended filenames; the JSON round trip itself is external
  to the claims and kept abstract. -/
  jsonAppendRemove : List Nat → List String → List Nat

/-- `external.PATCH_INSTRUCTIONS`. -/
def PATCH_INSTRUCTIONS : String := "patch_instructions.json"

/-- The URL `fetch_patch_instructions` fetches:
`urljoin(base_url + "/", PATCH_INSTRUCTIONS)`. -/
def patchUrl (env : CondaEnv) (channel : String) (subdir : String) : String :=
  env.channelBaseUrl channel subdir ++ "/" ++ PATCH_INSTRUCTIONS

/-- `external.verify_file(path, record)`: true iff the file's sha256 hex
digest equals the record's sha256 and its byte size equals the record's
size.  The source `stat`s and reads the file; it is only called on existing
paths, and the embedding returns `false` on a missing one. -/
def verify_file (env : CondaEnv) (fs : FileSystem) (path : List String)
    (record : PackageRecord) : Bool :=
  match fs.read path with
  | some file_bytes =>
      decide (record.sha256 = env.sha256hex file_bytes) &&
        decide (record.size = file_bytes.length)
  | none => false

/-- `external.download_package(record, destination, verify)`.  The returned
Boolean records whether `conda.exports._download` was invoked (the source
returns `None`; the flag is the call trace the theorems reason about). -/
def download_package (env : CondaEnv) (record : PackageRecord)
    (destination : List String) (verify : Bool) (fs : FileSystem) :
    FileSystem × Bool :=
  let path := destination ++ [record.subdir, record.fn]
  if (fs.read path).isSome then
    if verify then
      if verify_file env fs path record then
        (fs, false)  -- skip file
      else
        -- existing file failed verification: logged, then overwritten below
        ((fs.mkdirParents path.dropLast).write path (env.downloadBytes record.url), true)
    else
      (fs, false)  -- skip file
  else
    ((fs.mkdirParents path.dropLast).write path (env.downloadBytes record.url), true)

/-- A Python iterable bound to `packages_to_remove`
(`Optional[Iterable[PackageRecord]]` in the source): either a materialised
collection (a list/tuple/set, falsy exactly when empty) or an
iterator/generator object, which is truthy even when it yields nothing. -/
inductive PyIterable
  | list (l : List PackageRecord)
  | iterator (l : List PackageRecord)
deriving DecidableEq, Repr

/-- The elements a Python `for` loop draws from the iterable. -/
def PyIterable.elements : PyIterable → List PackageRecord
  | .list l => l
  | .iterator l => l

/-- Python truthiness of the `packages_to_remove` argument: `None` and an
empty collection are falsy; an iterator object is always truthy, even when
it is empty. -/
def pyTruthy : Option PyIterable → Bool
  | none => false
  | some (.list l) => !l.isEmpty
  | some (.iterator _) => true

/-- `external.fetch_patch_instructions(channel, destination, subdir,
packages_to_remove)`: GET `patch_instructions.json` at the channel's subdir
URL, raise on a non-success status, create the directories, write the body
to `destination/subdir/patch_instructions.json`; then, only when
`packages_to_remove` is truthy, reopen the file and append the filenames to
its `"remove"` array (re-serialisation abstracted by
`env.jsonAppendRemove`). -/
def fetch_patch_instructions (env : CondaEnv) (channel : String)
    (destination : List String) (subdir : String)
    (packages_to_remove : Option PyIterable) (fs : FileSystem) :
    Except PyError FileSystem :=
  match env.httpGet (patchUrl env channel subdir) with
  | .error e => .error e  -- response.raise_for_status()
  | .ok content =>
      let fs := fs.mkdirParents destination
      let instructions := destination ++ [subdir, PATCH_INSTRUCTIONS]
      let fs := fs.mkdirParents instructions.dropLast
      let fs := fs.write instructions content
      if pyTruthy packages_to_remove then
        .ok (fs.write instructions
          (env.jsonAppendRemove content
            ((packages_to_remove.getD (.list [])).elements.map (fun r => r.fn))))
      else
        .ok fs

/-- Modelled from the spec: `download_patch_instructions`, imported by
`api.py`, is not under `src/` (`external.py` defines the single-channel
`fetch_patch_instructions`).  Spec §4.5 step 4: "For every requested subdir,
fetch and write that subdir's patch-instructions document into the target",
with the fetch/write/raise semantics of §4.3's `fetch_patch_instructions`;
the channel list is resolved by the abstract `env.primaryChannel`. -/
def download_patch_instructions (env : CondaEnv) (channels : List String)
    (destination : List String) (subdir : String) (fs : FileSystem) :
    Except PyError FileSystem :=
  fetch_patch_instructions env (env.primaryChannel channels) destination subdir none fs

/-- The external index-build invocation made by `update_index`
(`conda_build.api.update_index(target, patch_generator, progress)`); the
patch generator is recorded as the entries of the
`patch_generator.tar.bz2` archive, or `none` when no archive was built. -/
structure IndexBuildCall where
  target : List String
  patchGenerator : Option (List (List String × List Nat))
  progress : Bool
deriving DecidableEq, Repr

/-- The entries `tar.add(target / patch, arcname=patch)` collects: each
`patch` path with the bytes of `target/patch`, raising `FileNotFoundError`
when that file does not exist. -/
def tarEntries (fs : FileSystem) (target : List String) :
    List (List String) → Except PyError (List (List String × List Nat))
  | [] => .ok []
  | patch :: rest =>
      match fs.read (target ++ patch) with
      | none => .error (.fileNotFound (target ++ patch))
      | some c =>
          match tarEntries fs target rest with
          | .error e => .error e
          | .ok es => .ok ((patch, c) :: es)

/-- `external.update_index(target, subdirs, silent)`: default the subdirs,
build `subdir/patch_instructions.json` paths, and - only when that list is
non-empty (`if patches:`) - package the files into the
`patch_generator.tar.bz2` archive; then invoke the external index builder
with the archive (or `None`) and `progress = not silent`. -/
def update_index (env : CondaEnv) (fs : FileSystem) (target : List String)
    (subdirs : Option (List String)) (silent : Bool) :
    Except PyError IndexBuildCall :=
  let subdirs := match subdirs with
    | none => env.currentSubdirs  -- get_default_subdirs()
    | some s => s
  let patches := subdirs.map (fun subdir => [subdir, PATCH_INSTRUCTIONS])
  if patches.isEmpty then
    .ok ⟨target, none, !silent⟩
  else
    match tarEntries fs target patches with
    | .error e => .error e
    | .ok entries => .ok ⟨target, some entries, !silent⟩

/-! ## The orchestration API (`api.py`) -/

/-- `api._ensure_list(items)`.  Both a Python `str` and a `list` are
`Iterable`, so the first branch (`not isinstance(items, Iterable)`) is never
taken for these shapes; the `isinstance(items, str)` branch wraps a bare
string into a one-element list instead of iterating its characters. -/
def _ensure_list : PyVal → List String
  | .str s => [s]
  | .list l => l

/-- `api._ensure_subdirs(subdirs)`: the current platform's defaults when
absent, otherwise `_ensure_list`. -/
def _ensure_subdirs (env : CondaEnv) : Option PyVal → List String
  | none => env.currentSubdirs
  | some v => _ensure_list v

/-- `api._ensure_local_channel(path)` (and `external.setup_channel`): create
`path/noarch` and touch `path/noarch/repodata.json`; `touch(exist_ok=True)`
creates an empty file when absent and leaves existing content alone. -/
def _ensure_local_channel (fs : FileSystem) (path : List String) : FileSystem :=
  let noarch_repo := path ++ ["noarch", "repodata.json"]
  let fs := fs.mkdirParents (path ++ ["noarch"])
  match fs.read noarch_repo with
  | some _ => fs
  | none => fs.write noarch_repo []

/-- `api.iterate(channels, subdirs)`: normalise, then delegate to
`iter_channels`.  The Python function is a generator; the `Except` value is
what consuming it to the end produces. -/
def iterate (env : CondaEnv) (channels : PyVal) (subdirs : Option PyVal) :
    Except PyError (List PackageRecord) :=
  env.iterChannels (_ensure_list channels) (_ensure_subdirs env subdirs)

/-- `api.query(channels, specs, subdirs, graph_file)`: normalise, run the
dependency finder; `graph_file` is accepted but the graph is never written. -/
def query (env : CondaEnv) (channels : PyVal) (specs : PyVal)
    (subdirs : Option PyVal) (graph_file : Option (List String)) :
    List PackageRecord :=
  let channelsL := _ensure_list channels
  let subdirsL := _ensure_subdirs env subdirs
  let specsL := _ensure_list specs
  let records := env.finderSearch channelsL subdirsL specsL
  let _ := graph_file  -- converted to Path when given; the graph is not saved
  records

/-- `api.diff(localPath, upstream, specs, subdirs)`.  The source wraps
`local_records = iterate(localPath.resolve().as_uri(), subdirs=subdirs)` in
`try: … except UnavailableInvalidChannel: local_records = iter([])`.
`iterate` is a Python generator function: the call only creates the
generator and runs none of its body, so nothing can raise inside the `try`
block; an `UnavailableInvalidChannel` from an unreadable localPath channel is
raised later, inside `compare_records`, when the generator is first
consumed - outside the handler - and therefore propagates out of `diff`.
The embedding reflects that: the error of the localPath enumeration is
propagated, and the handler branch is unreachable. -/
def diff (env : CondaEnv) (localPath : List String) (upstream : PyVal)
    (specs : PyVal) (subdirs : Option PyVal) :
    Except PyError (List PackageRecord × List PackageRecord) :=
  let upstreamL := _ensure_list upstream
  let subdirsL := _ensure_subdirs env subdirs
  let specsL := _ensure_list specs
  let local_records := iterate env (.str (env.pathToUri localPath)) (some (.list subdirsL))
  let upstream_records := query env (.list upstreamL) (.list specsL) (some (.list subdirsL)) none
  match local_records with
  | .error e => .error e  -- raised while compare_records consumes the generator
  | .ok locs =>
      let (removed, added) := compare_records locs upstream_records
      .ok (added, removed)

/-- One `shutil.copy(file, dst)` of `merge`'s loop: copying onto an existing
directory places the file inside it under the source's filename; otherwise
the destination's parent directory must already exist (`shutil.copy` creates
no directories and raises `FileNotFoundError` when it is missing). -/
def copyFile (fs : FileSystem) (dst : List String) (content : List Nat) :
    Except PyError FileSystem :=
  if dst ∈ fs.dirs then
    .ok (fs.write (dst ++ [dst.getLastD ""]) content)
  else if fs.hasDir dst.dropLast then
    .ok (fs.write dst content)
  else
    .error (.fileNotFound dst)

/-- The loop `for file in patch.glob("**/*"): if file.is_file():
shutil.copy(file, localPath / file.relative_to(patch))`, over the listed
patch files (path under the patch root, content). -/
def copyAll (fs : FileSystem) (localPath patch : List String) :
    List (List String × List Nat) → Except PyError FileSystem
  | [] => .ok fs
  | (p, c) :: rest =>
      match copyFile fs (localPath ++ p.drop patch.length) c with
      | .error e => .error e
      | .ok fs' => copyAll fs' localPath patch rest

/-- The files `patch.glob("**/*")` yields (with `is_file()` true): the files
of `fs` lying strictly under `patch`, in the filesystem's listing order. -/
def globFiles (fs : FileSystem) (patch : List String) :
    List (List String × List Nat) :=
  fs.files.filter (fun q => decide (patch <+: q.1) && decide (q.1 ≠ patch))

/-- `api.merge(localPath, patch, index, progress)`: copy every file under
`patch` to the corresponding relative location under `localPath`, then - if
`index` - rebuild the localPath index with `update_index(localPath, subdirs=[])`.
The result carries the final filesystem and the index-build invocation, if
one was made. -/
def merge (env : CondaEnv) (fs : FileSystem) (localPath patch : List String)
    (index : Bool) (progress : Bool) :
    Except PyError (FileSystem × Option IndexBuildCall) :=
  match copyAll fs localPath patch (globFiles fs patch) with
  | .error e => .error e
  | .ok fs' =>
      if index then
        match update_index env fs' localPath (some []) (!progress) with
        | .error e => .error e
        | .ok call => .ok (fs', some call)
      else
        .ok (fs', none)

/-- The loop `for subdir in subdirs: download_patch_instructions(channels,
destination, subdir)` of `sync`. -/
def fetchAll (env : CondaEnv) (channels : List String) (destination : List String) :
    List String → FileSystem → Except PyError FileSystem
  | [], fs => .ok fs
  | subdir :: rest, fs =>
      match download_patch_instructions env channels destination subdir fs with
      | .error e => .error e
      | .ok fs' => fetchAll env channels destination rest fs'

/-- The loop `for record in records: download_package(record, destination,
verify)` of `sync`, in list order. -/
def downloadAll (env : CondaEnv) (records : List PackageRecord)
    (destination : List String) (verify : Bool) (fs : FileSystem) : FileSystem :=
  records.foldl (fun fs r => (download_package env r destination verify fs).1) fs

/-- What one `sync` run produced: the final filesystem, the records passed
to `download_package` in invocation order, and the index-build invocation,
if one was made.  (The source returns `None`; the extra fields record the
call trace the theorems reason about.) -/
structure SyncResult where
  fs : FileSystem
  downloads : List PackageRecord
  indexCall : Option IndexBuildCall
deriving DecidableEq, Repr

/-- `api.sync(channels, localPath, specs, subdirs, index, verify, patch,
progress)`.  `patch` is the empty path when not given (`patch=""`, falsy);
`records = sorted(added_records, key=lambda rec: rec.fn)` becomes a stable
merge sort on the filename. -/
def sync (env : CondaEnv) (fs : FileSystem) (channels : PyVal)
    (localPath : List String) (specs : PyVal) (subdirs : Option PyVal)
    (index verify : Bool) (patch : List String) (progress : Bool) :
    Except PyError SyncResult :=
  let channelsL := _ensure_list channels
  let fs := _ensure_local_channel fs localPath
  let subdirsL := _ensure_subdirs env subdirs
  let destination := if patch.isEmpty then localPath else patch
  let fs := fs.mkdirParents destination
  match diff env localPath (.list channelsL) specs (some (.list subdirsL)) with
  | .error e => .error e
  | .ok (added_records, _) =>
      match fetchAll env channelsL destination subdirsL fs with
      | .error e => .error e
      | .ok fs =>
          let records := added_records.mergeSort (fun a b => a.fn ≤ b.fn)
          let fs := downloadAll env records destination verify fs
          if index && patch.isEmpty then
            match update_index env fs localPath (some subdirsL) (!progress) with
            | .error e => .error e
            | .ok call => .ok ⟨fs, records, some call⟩
          else
            .ok ⟨fs, records, none⟩

/-! ## Claim C2: `compare_records` identity ignores the channel -/

/-- C2: `compare_records` compares records only by the channel-insensitive
key (subdir, name, version, build, build_number): two records with equal
keys on opposite sides (whatever their channel, URL or hash metadata)
appear in neither returned difference set, and a record appears in a
returned set exactly when it occurs on that side and its key occurs on no
record of the other side. -/
theorem compare_records_channel_insensitive (left right : List PackageRecord) :
    (∀ l ∈ left, ∀ r ∈ right, no_channel_key l = no_channel_key r →
      l ∉ (compare_records left right).1 ∧ l ∉ (compare_records left right).2 ∧
      r ∉ (compare_records left right).1 ∧ r ∉ (compare_records left right).2)
    ∧ (∀ r, r ∈ (compare_records left right).1 ↔
        r ∈ left ∧ ∀ r' ∈ right, no_channel_key r' ≠ no_channel_key r)
    ∧ (∀ r, r ∈ (compare_records left right).2 ↔
        r ∈ right ∧ ∀ l' ∈ left, no_channel_key l' ≠ no_channel_key r) := by
  refine ⟨?_, fun r => mem_compare_records_left left right r,
    fun r => mem_compare_records_right left right r⟩
  intro l hl r hr hk
  refine ⟨?_, ?_, ?_, ?_⟩
  · rw [mem_compare_records_left]
    rintro ⟨-, h⟩
    exact h r hr hk.symm
  · rw [mem_compare_records_right]
    rintro ⟨-, h⟩
    exact h l hl rfl
  · rw [mem_compare_records_left]
    rintro ⟨-, h⟩
    exact h r hr rfl
  · rw [mem_compare_records_right]
    rintro ⟨-, h⟩
    exact h l hl hk

/-! ## Claim C9: singular/plural argument normalization -/

/-- C9: passing a bare string versus the one-element list of that string as
the `channels`, `subdirs` or `specs` argument of an Orchestration API
operation yields identical results - `_ensure_list` wraps a string into a
one-element list and never iterates its characters.  `diff`, `iterate`,
`query` and `sync` take such arguments (each position is covered below);
`merge` takes no channel/subdir/spec argument, so the property holds there
vacuously. -/
theorem singular_plural_normalization (env : CondaEnv) (fs : FileSystem)
    (s : String) (localPath patch gf : List String) (other : PyVal)
    (subdirs : Option PyVal) (index verify progress : Bool) :
    _ensure_list (.str s) = _ensure_list (.list [s])
    ∧ diff env localPath (.str s) other subdirs
        = diff env localPath (.list [s]) other subdirs
    ∧ diff env localPath other (.str s) subdirs
        = diff env localPath other (.list [s]) subdirs
    ∧ diff env localPath other other (some (.str s))
        = diff env localPath other other (some (.list [s]))
    ∧ iterate env (.str s) subdirs = iterate env (.list [s]) subdirs
    ∧ iterate env other (some (.str s)) = iterate env other (some (.list [s]))
    ∧ query env (.str s) other subdirs (some gf)
        = query env (.list [s]) other subdirs (some gf)
    ∧ query env other (.str s) subdirs (some gf)
        = query env other (.list [s]) subdirs (some gf)
    ∧ query env other other (some (.str s)) (some gf)
        = query env other other (some (.list [s])) (some gf)
    ∧ sync env fs (.str s) localPath other subdirs index verify patch progress
        = sync env fs (.list [s]) localPath other subdirs index verify patch progress
    ∧ sync env fs other localPath (.str s) subdirs index verify patch progress
        = sync env fs other localPath (.list [s]) subdirs index verify patch progress
    ∧ sync env fs other localPath other (some (.str s)) index verify patch progress
        = sync env fs other localPath other (some (.list [s])) index verify patch progress :=
  ⟨rfl, rfl, rfl, rfl, rfl, rfl, rfl, rfl, rfl, rfl, rfl, rfl⟩

/-! ## Claim C10: an empty `packages_to_remove` and the truthiness guard -/

/-- C10 (amended): `fetch_patch_instructions` with `packages_to_remove`
bound to an empty collection (an empty list - falsy, like the default
`None`) behaves identically to calling it with the argument absent: the
guard `if packages_to_remove:` is falsy for both, the written file is not
reopened or modified, and on success it holds exactly the bytes received
from upstream (its `"remove"` array in particular).  An empty iterator is
instead truthy and takes the reopen/rewrite branch - see the
counterexample below. -/
theorem fetch_patch_instructions_empty_remove (env : CondaEnv) (channel : String)
    (destination : List String) (subdir : String) (fs : FileSystem) :
    fetch_patch_instructions env channel destination subdir (some (.list [])) fs
      = fetch_patch_instructions env channel destination subdir none fs
    ∧ ∀ body, env.httpGet (patchUrl env channel subdir) = .ok body →
        ∃ fs', fetch_patch_instructions env channel destination subdir
            (some (.list [])) fs = .ok fs'
          ∧ fs'.read (destination ++ [subdir, PATCH_INSTRUCTIONS]) = some body := by
  refine ⟨rfl, ?_⟩
  intro body h
  have hfe : fetch_patch_instructions env channel destination subdir
      (some (.list [])) fs
      = .ok (((fs.mkdirParents destination).mkdirParents
          ((destination ++ [subdir, PATCH_INSTRUCTIONS]).dropLast)).write
          (destination ++ [subdir, PATCH_INSTRUCTIONS]) body) := by
    unfold fetch_patch_instructions
    rw [h]
    rfl
  exact ⟨_, hfe, FileSystem.read_write_self _ _ _⟩

/-! ## Claim C7: `download_package` skip/verify/overwrite behaviour -/

theorem dropLast_append_pair (xs : List String) (a b : String) :
    (xs ++ [a, b]).dropLast = xs ++ [a] := by
  rw [show xs ++ [a, b] = (xs ++ [a]) ++ [b] from by simp, List.dropLast_concat]

/-- C7: `download_package(record, destination, verify)` targets
`destination/subdir/filename`; the download is skipped (no filesystem
change) exactly when the file exists and either `verify` is false or the
file's sha256 hex digest and byte size match the record; otherwise the file
is downloaded after creating the parent directories, and no other path
changes. -/
theorem download_package_semantics (env : CondaEnv) (record : PackageRecord)
    (destination : List String) (verify : Bool) (fs : FileSystem) :
    ((download_package env record destination verify fs).2 = false ↔
      ∃ c, fs.read (destination ++ [record.subdir, record.fn]) = some c ∧
        (verify = false ∨
          (record.sha256 = env.sha256hex c ∧ record.size = c.length)))
    ∧ ((download_package env record destination verify fs).2 = false →
        (download_package env record destination verify fs).1 = fs)
    ∧ ((download_package env record destination verify fs).2 = true →
        (download_package env record destination verify fs).1.read
            (destination ++ [record.subdir, record.fn])
          = some (env.downloadBytes record.url)
        ∧ ∀ d ∈ ancestors (destination ++ [record.subdir]),
            d ∈ (download_package env record destination verify fs).1.dirs)
    ∧ (∀ q, q ≠ destination ++ [record.subdir, record.fn] →
        (download_package env record destination verify fs).1.read q = fs.read q) := by
  have hpath : (destination ++ [record.subdir, record.fn]).dropLast
      = destination ++ [record.subdir] := dropLast_append_pair _ _ _
  rcases hread : fs.read (destination ++ [record.subdir, record.fn]) with _ | c
  · -- the file does not exist: it is downloaded
    have hres : download_package env record destination verify fs
        = ((fs.mkdirParents (destination ++ [record.subdir])).write
            (destination ++ [record.subdir, record.fn])
            (env.downloadBytes record.url), true) := by
      simp only [download_package, hread, Option.isSome_none, Bool.false_eq_true,
        if_false, hpath]
    refine ⟨?_, ?_, ?_, ?_⟩
    · rw [hres]
      simp [hread]
    · rw [hres]
      intro h
      cases h
    · intro _
      rw [hres]
      refine ⟨FileSystem.read_write_self _ _ _, ?_⟩
      intro d hd
      exact List.mem_union_iff.2 (Or.inr hd)
    · intro q hq
      rw [hres]
      exact (FileSystem.read_write_ne _ _ _ _ hq).trans rfl
  · by_cases hv : verify = true
    · by_cases hvf :
        verify_file env fs (destination ++ [record.subdir, record.fn]) record = true
      · -- the file exists, verification requested and passed: skip
        have hmatch : record.sha256 = env.sha256hex c ∧ record.size = c.length := by
          rw [verify_file, hread] at hvf
          simpa using hvf
        have hres : download_package env record destination verify fs = (fs, false) := by
          simp only [download_package, hread, Option.isSome_some, if_true, hv, hvf]
        refine ⟨?_, ?_, ?_, ?_⟩
        · rw [hres]
          exact iff_of_true rfl ⟨c, rfl, Or.inr hmatch⟩
        · intro _
          rw [hres]
        · rw [hres]
          intro h
          cases h
        · intro q _
          rw [hres]
      · -- the file exists but fails verification: logged, overwritten
        have hres : download_package env record destination verify fs
            = ((fs.mkdirParents (destination ++ [record.subdir])).write
                (destination ++ [record.subdir, record.fn])
                (env.downloadBytes record.url), true) := by
          simp only [download_package, hread, Option.isSome_some, if_true, hv,
            hvf, Bool.false_eq_true, if_false, hpath]
        refine ⟨?_, ?_, ?_, ?_⟩
        · rw [hres]
          refine iff_of_false (by simp) ?_
          rintro ⟨c', hc', hor⟩
          obtain rfl : c = c' := by injection hc'
          rcases hor with hfalse | hprops
          · rw [hv] at hfalse
            cases hfalse
          · refine hvf ?_
            rw [verify_file, hread]
            simp [hprops.1, hprops.2]
        · rw [hres]
          intro h
          cases h
        · intro _
          rw [hres]
          refine ⟨FileSystem.read_write_self _ _ _, ?_⟩
          intro d hd
          exact List.mem_union_iff.2 (Or.inr hd)
        · intro q hq
          rw [hres]
          exact (FileSystem.read_write_ne _ _ _ _ hq).trans rfl
    · -- the file exists and verification is off: always skip
      have hv' : verify = false := by
        cases verify
        · rfl
        · exact absurd rfl hv
      have hres : download_package env record destination verify fs = (fs, false) := by
        simp only [download_package, hread, Option.isSome_some, if_true, hv',
          Bool.false_eq_true, if_false]
      refine ⟨?_, ?_, ?_, ?_⟩
      · rw [hres]
        exact iff_of_true rfl ⟨c, rfl, Or.inl hv'⟩
      · intro _
        rw [hres]
      · rw [hres]
        intro h
        cases h
      · intro q _
        rw [hres]

/-! ## Claims C3 and C5: `merge` -/

theorem copyAll_ok (localPath patch : List String) :
    ∀ (l : List (List String × List Nat)) (fs : FileSystem),
      (∀ pc ∈ l, fs.hasDir (localPath ++ pc.1.drop patch.length).dropLast = true) →
      (∀ pc ∈ l, (localPath ++ pc.1.drop patch.length) ∉ fs.dirs) →
      ((l.map (fun pc => localPath ++ pc.1.drop patch.length)).Nodup) →
      ∃ fs', copyAll fs localPath patch l = .ok fs'
        ∧ (∀ q, q ∉ l.map (fun pc => localPath ++ pc.1.drop patch.length) →
            fs'.read q = fs.read q)
        ∧ (∀ pc ∈ l, fs'.read (localPath ++ pc.1.drop patch.length) = some pc.2)
        ∧ fs'.dirs = fs.dirs := by
  intro l
  induction l with
  | nil =>
      intro fs _ _ _
      exact ⟨fs, rfl, fun q _ => rfl, fun pc h => absurd h (List.not_mem_nil _), rfl⟩
  | cons a t ih =>
      intro fs hd hnd hnodup
      obtain ⟨p, c⟩ := a
      have hdir : fs.hasDir (localPath ++ p.drop patch.length).dropLast = true :=
        hd (p, c) (List.mem_cons_self _ _)
      have hmem : (localPath ++ p.drop patch.length) ∉ fs.dirs :=
        hnd (p, c) (List.mem_cons_self _ _)
      have hcf : copyFile fs (localPath ++ p.drop patch.length) c
          = .ok (fs.write (localPath ++ p.drop patch.length) c) := by
        rw [copyFile, if_neg hmem, if_pos hdir]
      simp only [List.map_cons, List.nodup_cons] at hnodup
      obtain ⟨fs', hca, hpres, hreads, hdirs⟩ :=
        ih (fs.write (localPath ++ p.drop patch.length) c)
          (fun pc hpc => by
            rw [FileSystem.hasDir_write]
            exact hd pc (List.mem_cons_of_mem _ hpc))
          (fun pc hpc => hnd pc (List.mem_cons_of_mem _ hpc))
          hnodup.2
      refine ⟨fs', ?_, ?_, ?_, ?_⟩
      · simp only [copyAll, hcf]
        exact hca
      · intro q hq
        simp only [List.map_cons, List.mem_cons] at hq
        push_neg at hq
        rw [hpres q hq.2, FileSystem.read_write_ne _ _ _ _ hq.1]
      · intro pc hpc
        rcases List.mem_cons.1 hpc with h | h
        · subst h
          rw [hpres _ hnodup.1, FileSystem.read_write_self]
        · exact hreads pc h
      · rw [hdirs]
        rfl

/-- C3 counterexample filesystem: the patch holds one file in a `linux-64`
subdirectory that does not exist under the local mirror. -/
def c3fs : FileSystem :=
  ⟨[(["patch", "linux-64", "a"], [0])],
   [["local"], ["local", "noarch"], ["patch"], ["patch", "linux-64"]]⟩

/-- A sample package record, consistent with `okEnv` below (its sha256 and
size match what `okEnv` downloads). -/
def r0 : PackageRecord :=
  ⟨"noarch", "a", "1", "0", 0, "a-1-0.tar.bz2", "u", "hh", 1, "c"⟩

/-- A concrete environment (every external call succeeds trivially) used by
the concrete evaluations below. -/
def okEnv : CondaEnv where
  iterChannels := fun _ _ => .ok []
  finderSearch := fun _ _ _ => [r0]
  currentSubdirs := ["noarch"]
  pathToUri := fun p => String.intercalate "/" ("file:" :: p)
  channelBaseUrl := fun c s => c ++ "/" ++ s
  primaryChannel := fun l => l.headD ""
  httpGet := fun _ => .ok [123]
  downloadBytes := fun _ => [42]
  sha256hex := fun _ => "hh"
  jsonAppendRemove := fun b _ => b

/-- C3 counterexample: `merge` raises `FileNotFoundError` instead of
creating the missing `local/linux-64` directory - `shutil.copy` creates no
directories - so the patch file never appears under the local mirror. -/
theorem merge_missing_directory_counterexample :
    merge okEnv c3fs ["local"] ["patch"] false false
      = .error (.fileNotFound ["local", "linux-64", "a"])
    ∧ ∀ out, merge okEnv c3fs ["local"] ["patch"] false false ≠ .ok out := by
  refine ⟨by rfl, ?_⟩
  intro out h
  rw [show merge okEnv c3fs ["local"] ["patch"] false false
      = .error (.fileNotFound ["local", "linux-64", "a"]) from by rfl] at h
  cases h

/-- C3 (amended): `merge` itself creates no directories; provided every
file of the patch already has its destination directory under `local`
(and no destination collides with an existing directory, in which case
`shutil.copy` would drop the file inside it), `merge` completes and every
file under the patch exists at the identical relative path under `local`
with identical byte content. -/
theorem merge_preserves_patch_content (env : CondaEnv) (fs : FileSystem)
    (localPath patch : List String) (index progress : Bool)
    (hdirs : ∀ pc ∈ globFiles fs patch,
      fs.hasDir (localPath ++ pc.1.drop patch.length).dropLast = true)
    (hnotdir : ∀ pc ∈ globFiles fs patch,
      (localPath ++ pc.1.drop patch.length) ∉ fs.dirs)
    (hnd : ((globFiles fs patch).map
      (fun pc => localPath ++ pc.1.drop patch.length)).Nodup) :
    ∃ fs' call, merge env fs localPath patch index progress = .ok (fs', call)
      ∧ ∀ pc ∈ globFiles fs patch,
          fs'.read (localPath ++ pc.1.drop patch.length) = some pc.2 := by
  obtain ⟨fs', hca, _, hreads, _⟩ :=
    copyAll_ok localPath patch (globFiles fs patch) fs hdirs hnotdir hnd
  cases index
  · refine ⟨fs', none, ?_, hreads⟩
    rw [merge, hca]
    rfl
  · refine ⟨fs', some ⟨localPath, none, !(!progress)⟩, ?_, hreads⟩
    rw [merge, hca]
    rfl

/-- The C5 filesystem: the local mirror `l` already holds a
`noarch/patch_instructions.json`, and the patch directory `p` holds one
file whose destination directory exists. -/
def c5fs : FileSystem :=
  ⟨[(["l", "noarch", "patch_instructions.json"], [7]), (["p", "f"], [1])],
   [["l"], ["l", "noarch"], ["p"]]⟩

/-- The filesystem produced by the C5 merge run. -/
def c5merged : FileSystem :=
  match merge okEnv c5fs ["l"] ["p"] true false with
  | .ok (fs, _) => fs
  | .error _ => ⟨[], []⟩

/-- C5 counterexample: `merge(local, patch, index=true)` invokes the index
builder with NO patch-generator input (`patch_generator = None`) - the
empty subdir list short-circuits `if patches:` - even though a
`patch_instructions.json` exists under the local mirror; the rebuild does
not use the patch-instruction files under `local`. -/
theorem merge_index_no_patch_generator_counterexample :
    merge okEnv c5fs ["l"] ["p"] true false
      = .ok (c5merged, some ⟨["l"], none, false⟩)
    ∧ c5merged.read ["l", "noarch", "patch_instructions.json"] = some [7]
    ∧ (⟨["l"], none, false⟩ : IndexBuildCall).patchGenerator = none := by
  exact ⟨by rfl, by rfl, rfl⟩

/-- C5 (amended): `merge(local, patch, index=true)` rebuilds the index with
an empty subdir list, and under that empty list no patch-generator archive
is built at all: whenever the copy phase succeeds the external index
builder is invoked with `patch_generator = None` (and the original
`progress` flag), whatever patch-instruction files exist under `local`. -/
theorem merge_update_index_empty_subdirs (env : CondaEnv) (fs : FileSystem)
    (localPath patch : List String) (progress : Bool) (fs' : FileSystem)
    (hcopy : copyAll fs localPath patch (globFiles fs patch) = .ok fs') :
    ∃ call, merge env fs localPath patch true progress = .ok (fs', some call)
      ∧ call.target = localPath
      ∧ call.patchGenerator = none
      ∧ call.progress = progress := by
  refine ⟨⟨localPath, none, !(!progress)⟩, ?_, rfl, rfl, Bool.not_not progress⟩
  rw [merge, hcopy]
  rfl

/-! ## Helper lemmas for `sync` -/

theorem _ensure_local_channel_read_ne (fs : FileSystem) (path q : List String)
    (h : q ≠ path ++ ["noarch", "repodata.json"]) :
    (_ensure_local_channel fs path).read q = fs.read q := by
  simp only [_ensure_local_channel]
  rcases hr : (fs.mkdirParents (path ++ ["noarch"])).read
      (path ++ ["noarch", "repodata.json"]) with _ | c
  · exact (FileSystem.read_write_ne _ _ _ _ h).trans rfl
  · rfl

theorem dpi_cases (env : CondaEnv) (channels destination : List String)
    (subdir : String) (fs : FileSystem) :
    (∃ e, env.httpGet (patchUrl env (env.primaryChannel channels) subdir) = .error e
      ∧ download_patch_instructions env channels destination subdir fs = .error e)
    ∨ (∃ body,
        env.httpGet (patchUrl env (env.primaryChannel channels) subdir) = .ok body
      ∧ download_patch_instructions env channels destination subdir fs
          = .ok (((fs.mkdirParents destination).mkdirParents
              ((destination ++ [subdir, PATCH_INSTRUCTIONS]).dropLast)).write
              (destination ++ [subdir, PATCH_INSTRUCTIONS]) body)) := by
  rcases h : env.httpGet (patchUrl env (env.primaryChannel channels) subdir) with e | body
  · refine Or.inl ⟨e, rfl, ?_⟩
    unfold download_patch_instructions fetch_patch_instructions
    rw [h]
  · refine Or.inr ⟨body, rfl, ?_⟩
    unfold download_patch_instructions fetch_patch_instructions
    rw [h]
    rfl

theorem fetchAll_preserves (env : CondaEnv) (channels destination : List String) :
    ∀ (l : List String) (fs fs' : FileSystem),
      fetchAll env channels destination l fs = .ok fs' →
      ∀ q, (∀ s ∈ l, q ≠ destination ++ [s, PATCH_INSTRUCTIONS]) →
        fs'.read q = fs.read q := by
  intro l
  induction l with
  | nil =>
      intro fs fs' h q _
      simp only [fetchAll] at h
      injection h with h
      subst h
      rfl
  | cons s t ih =>
      intro fs fs' h q hq
      rcases dpi_cases env channels destination s fs with ⟨e, _, hd⟩ | ⟨body, _, hd⟩
      · simp only [fetchAll, hd] at h
        cases h
      · simp only [fetchAll, hd] at h
        rw [ih _ _ h q (fun s' hs' => hq s' (List.mem_cons_of_mem _ hs'))]
        exact (FileSystem.read_write_ne _ _ _ _
          (hq s (List.mem_cons_self _ _))).trans rfl

theorem fetchAll_written (env : CondaEnv) (channels destination : List String) :
    ∀ (l : List String) (fs fs' : FileSystem),
      fetchAll env channels destination l fs = .ok fs' →
      ∀ s ∈ l, ∃ body,
        env.httpGet (patchUrl env (env.primaryChannel channels) s) = .ok body ∧
        fs'.read (destination ++ [s, PATCH_INSTRUCTIONS]) = some body := by
  intro l
  induction l with
  | nil =>
      intro fs fs' _ s hs
      exact absurd hs (List.not_mem_nil _)
  | cons s₀ t ih =>
      intro fs fs' h s hs
      rcases dpi_cases env channels destination s₀ fs with ⟨e, _, hd⟩ | ⟨body₀, hb₀, hd⟩
      · simp only [fetchAll, hd] at h
        cases h
      · simp only [fetchAll, hd] at h
        rcases List.mem_cons.1 hs with rfl | hs'
        · by_cases hmem : s ∈ t
          · exact ih _ _ h s hmem
          · refine ⟨body₀, hb₀, ?_⟩
            rw [fetchAll_preserves env channels destination t _ _ h _ ?_]
            · exact FileSystem.read_write_self _ _ _
            · intro s' hs' heq
              apply hmem
              have h2 : [s, PATCH_INSTRUCTIONS] = [s', PATCH_INSTRUCTIONS] :=
                List.append_cancel_left heq
              have h3 : s = s' := by injection h2
              rw [h3]
              exact hs'
        · exact ih _ _ h s hs'

theorem fetchAll_dirs_mono (env : CondaEnv) (channels destination : List String) :
    ∀ (l : List String) (fs fs' : FileSystem),
      fetchAll env channels destination l fs = .ok fs' →
      ∀ d, d ∈ fs.dirs → d ∈ fs'.dirs := by
  intro l
  induction l with
  | nil =>
      intro fs fs' h d hd
      simp only [fetchAll] at h
      injection h with h
      subst h
      exact hd
  | cons s t ih =>
      intro fs fs' h d hd
      rcases dpi_cases env channels destination s fs with ⟨e, _, hdp⟩ | ⟨body, _, hdp⟩
      · simp only [fetchAll, hdp] at h
        cases h
      · simp only [fetchAll, hdp] at h
        exact ih _ _ h d (List.mem_union_iff.2 (Or.inl (List.mem_union_iff.2 (Or.inl hd))))

theorem download_package_fst_cases (env : CondaEnv) (record : PackageRecord)
    (destination : List String) (verify : Bool) (fs : FileSystem) :
    (download_package env record destination verify fs).1 = fs ∨
    (download_package env record destination verify fs).1
      = (fs.mkdirParents (destination ++ [record.subdir, record.fn]).dropLast).write
          (destination ++ [record.subdir, record.fn])
          (env.downloadBytes record.url) := by
  simp only [download_package]
  split_ifs
  · exact Or.inl rfl
  · exact Or.inr rfl
  · exact Or.inl rfl
  · exact Or.inr rfl

theorem download_package_read_ne (env : CondaEnv) (record : PackageRecord)
    (destination : List String) (verify : Bool) (fs : FileSystem)
    (q : List String) (hq : q ≠ destination ++ [record.subdir, record.fn]) :
    (download_package env record destination verify fs).1.read q = fs.read q := by
  rcases download_package_fst_cases env record destination verify fs with h | h
  · rw [h]
  · rw [h]
    exact (FileSystem.read_write_ne _ _ _ _ hq).trans rfl

theorem download_package_read_isSome (env : CondaEnv) (record : PackageRecord)
    (destination : List String) (verify : Bool) (fs : FileSystem)
    (q : List String) (h : (fs.read q).isSome) :
    ((download_package env record destination verify fs).1.read q).isSome := by
  rcases download_package_fst_cases env record destination verify fs with h' | h'
  · rw [h']
    exact h
  · rw [h']
    exact FileSystem.read_isSome_write _ _ _ _ h

theorem download_package_dirs_mono (env : CondaEnv) (record : PackageRecord)
    (destination : List String) (verify : Bool) (fs : FileSystem)
    (d : List String) (h : d ∈ fs.dirs) :
    d ∈ (download_package env record destination verify fs).1.dirs := by
  rcases download_package_fst_cases env record destination verify fs with h' | h'
  · rw [h']
    exact h
  · rw [h']
    exact List.mem_union_iff.2 (Or.inl h)

theorem downloadAll_preserves (env : CondaEnv) (destination : List String)
    (verify : Bool) :
    ∀ (recs : List PackageRecord) (fs : FileSystem) (q : List String),
      (∀ r ∈ recs, q ≠ destination ++ [r.subdir, r.fn]) →
      (downloadAll env recs destination verify fs).read q = fs.read q := by
  intro recs
  induction recs with
  | nil => intro fs q _; rfl
  | cons r t ih =>
      intro fs q hq
      show (downloadAll env t destination verify
        (download_package env r destination verify fs).1).read q = _
      rw [ih _ _ (fun r' hr' => hq r' (List.mem_cons_of_mem _ hr')),
        download_package_read_ne _ _ _ _ _ _ (hq r (List.mem_cons_self _ _))]

theorem downloadAll_read_isSome (env : CondaEnv) (destination : List String)
    (verify : Bool) :
    ∀ (recs : List PackageRecord) (fs : FileSystem) (q : List String),
      (fs.read q).isSome →
      ((downloadAll env recs destination verify fs).read q).isSome := by
  intro recs
  induction recs with
  | nil => intro fs q h; exact h
  | cons r t ih =>
      intro fs q h
      exact ih _ _ (download_package_read_isSome env r destination verify fs q h)

theorem downloadAll_dirs_mono (env : CondaEnv) (destination : List String)
    (verify : Bool) :
    ∀ (recs : List PackageRecord) (fs : FileSystem) (d : List String),
      d ∈ fs.dirs →
      d ∈ (downloadAll env recs destination verify fs).dirs := by
  intro recs
  induction recs with
  | nil => intro fs d h; exact h
  | cons r t ih =>
      intro fs d h
      exact ih _ _ (download_package_dirs_mono env r destination verify fs d h)

/-- Inversion of a successful `sync` run: the diff succeeded, the
patch-instruction fetches succeeded, the downloads were the filename-sorted
added records applied to the fetched state, and the index was rebuilt
exactly under `index and not patch`. -/
theorem sync_ok_inversion (env : CondaEnv) (fs : FileSystem) (channels : PyVal)
    (localPath : List String) (specs : PyVal) (subdirs : Option PyVal)
    (index verify : Bool) (patch : List String) (progress : Bool)
    (res : SyncResult)
    (h : sync env fs channels localPath specs subdirs index verify patch progress
      = .ok res) :
    ∃ added removed fsMid,
      diff env localPath (.list (_ensure_list channels)) specs
          (some (.list (_ensure_subdirs env subdirs))) = .ok (added, removed)
      ∧ fetchAll env (_ensure_list channels)
          (if patch.isEmpty then localPath else patch)
          (_ensure_subdirs env subdirs)
          ((_ensure_local_channel fs localPath).mkdirParents
            (if patch.isEmpty then localPath else patch)) = .ok fsMid
      ∧ res.downloads = added.mergeSort (fun a b => a.fn ≤ b.fn)
      ∧ res.fs = downloadAll env res.downloads
          (if patch.isEmpty then localPath else patch) verify fsMid
      ∧ ((index && patch.isEmpty) = true →
          ∃ call, res.indexCall = some call)
      ∧ ((index && patch.isEmpty) = false → res.indexCall = none) := by
  simp only [sync] at h
  rcases hdiff : diff env localPath (.list (_ensure_list channels)) specs
      (some (.list (_ensure_subdirs env subdirs))) with e | pr
  · rw [hdiff] at h
    simp only [] at h
    cases h
  obtain ⟨added, removed⟩ := pr
  rw [hdiff] at h
  simp only [] at h
  rcases hfetch : fetchAll env (_ensure_list channels)
      (if patch.isEmpty then localPath else patch)
      (_ensure_subdirs env subdirs)
      ((_ensure_local_channel fs localPath).mkdirParents
        (if patch.isEmpty then localPath else patch)) with e | fsMid
  · rw [hfetch] at h
    simp only [] at h
    cases h
  rw [hfetch] at h
  simp only [] at h
  by_cases hidx : (index && patch.isEmpty) = true
  · rw [if_pos hidx] at h
    rcases hui : update_index env
        (downloadAll env (added.mergeSort (fun a b => a.fn ≤ b.fn))
          (if patch.isEmpty then localPath else patch) verify fsMid)
        localPath (some (_ensure_subdirs env subdirs)) (!progress) with e | call
    · rw [hui] at h
      simp only [] at h
      cases h
    · rw [hui] at h
      simp only [] at h
      injection h with h
      subst h
      refine ⟨added, removed, fsMid, rfl, rfl, rfl, rfl, fun _ => ⟨call, rfl⟩, ?_⟩
      intro hcon
      rw [hidx] at hcon
      cases hcon
  · rw [if_neg hidx] at h
    injection h with h
    subst h
    refine ⟨added, removed, fsMid, rfl, rfl, rfl, rfl, fun hcon => ?_, fun _ => rfl⟩
    exact absurd hcon hidx

/-! ## Claim C4: `sync` with a patch directory writes only there -/

/-- C4: on a successful `sync` with a non-empty `patch` argument, the index
rebuild is skipped (even when `index` is true), the patch directory is
created, and the only file that may change outside the patch directory is
the `noarch/repodata.json` bootstrap stub under `local`; moreover the index
is rebuilt exactly when `index` is true and no patch directory was given. -/
theorem sync_patch_frame (env : CondaEnv) (fs : FileSystem) (channels : PyVal)
    (localPath : List String) (specs : PyVal) (subdirs : Option PyVal)
    (index verify : Bool) (patch : List String) (progress : Bool) :
    ∀ res, sync env fs channels localPath specs subdirs index verify patch progress
        = .ok res →
      (patch ≠ [] →
        res.indexCall = none
        ∧ patch ∈ res.fs.dirs
        ∧ ∀ q, res.fs.read q ≠ fs.read q →
            (patch <+: q ∨ q = localPath ++ ["noarch", "repodata.json"]))
      ∧ (res.indexCall.isSome ↔ (index = true ∧ patch = [])) := by
  intro res h
  obtain ⟨added, removed, fsMid, _, hfetch, hdl, hfs, hsome, hnone⟩ :=
    sync_ok_inversion env fs channels localPath specs subdirs index verify
      patch progress res h
  have hptch : patch ≠ [] → patch.isEmpty = false := by
    intro hp
    cases hpe : patch.isEmpty
    · rfl
    · exact absurd (List.isEmpty_iff.1 hpe) hp
  constructor
  · intro hp
    have hpe := hptch hp
    rw [hpe] at hfetch hfs
    simp only [if_neg (by simp : ¬ (false = true))] at hfetch hfs
    refine ⟨hnone (by rw [hpe, Bool.and_false]), ?_, ?_⟩
    · rw [hfs]
      refine downloadAll_dirs_mono env patch verify _ _ _ ?_
      exact fetchAll_dirs_mono env (_ensure_list channels) patch _ _ _ hfetch _
        (FileSystem.self_mem_dirs_mkdirParents _ _ hp)
    · intro q hq
      by_contra hcon
      push_neg at hcon
      obtain ⟨hnp, hns⟩ := hcon
      apply hq
      rw [hfs]
      rw [downloadAll_preserves env patch verify res.downloads _ q ?_]
      · rw [fetchAll_preserves env (_ensure_list channels) patch _ _ _ hfetch q ?_]
        · exact _ensure_local_channel_read_ne fs localPath q hns
        · intro s _ heq
          exact hnp (heq ▸ List.prefix_append patch [s, PATCH_INSTRUCTIONS])
      · intro r _ heq
        exact hnp (heq ▸ List.prefix_append patch [r.subdir, r.fn])
  · constructor
    · intro hsome'
      rcases hb : (index && patch.isEmpty) with _ | _
      · rw [hnone hb] at hsome'
        cases hsome'
      · obtain ⟨hi, hp⟩ := (Bool.and_eq_true index patch.isEmpty) ▸ hb
        exact ⟨hi, List.isEmpty_iff.1 hp⟩
    · rintro ⟨hi, hp⟩
      obtain ⟨call, hc⟩ := hsome (by rw [hi, hp]; rfl)
      rw [hc]
      rfl

/-! ## Claim C6: `sync` fetches patch instructions for every subdir -/

/-- C6: for every subdir in the requested list a successful `sync` fetched
that subdir's patch-instructions document over HTTP and wrote it to
`<target>/<subdir>/patch_instructions.json` (independently of which
packages were added; the file is still present in the final state), and a
non-success HTTP response during any of these fetches prevents `sync` from
returning successfully - the error propagates to the caller. -/
theorem sync_fetches_patch_instructions (env : CondaEnv) (fs : FileSystem)
    (channels : PyVal) (localPath : List String) (specs : PyVal)
    (subdirs : Option PyVal) (index verify : Bool) (patch : List String)
    (progress : Bool) :
    (∀ res, sync env fs channels localPath specs subdirs index verify patch progress
        = .ok res →
      ∀ subdir ∈ _ensure_subdirs env subdirs,
        ∃ body fsMid,
          env.httpGet (patchUrl env (env.primaryChannel (_ensure_list channels))
            subdir) = .ok body
          ∧ fetchAll env (_ensure_list channels)
              (if patch.isEmpty then localPath else patch)
              (_ensure_subdirs env subdirs)
              ((_ensure_local_channel fs localPath).mkdirParents
                (if patch.isEmpty then localPath else patch)) = .ok fsMid
          ∧ fsMid.read ((if patch.isEmpty then localPath else patch)
              ++ [subdir, PATCH_INSTRUCTIONS]) = some body
          ∧ (res.fs.read ((if patch.isEmpty then localPath else patch)
              ++ [subdir, PATCH_INSTRUCTIONS])).isSome)
    ∧ ((∃ subdir ∈ _ensure_subdirs env subdirs,
          ∀ b, env.httpGet (patchUrl env (env.primaryChannel (_ensure_list channels))
            subdir) ≠ .ok b) →
        ∀ res, sync env fs channels localPath specs subdirs index verify patch
          progress ≠ .ok res) := by
  constructor
  · intro res h subdir hsub
    obtain ⟨added, removed, fsMid, _, hfetch, _, hfs, _, _⟩ :=
      sync_ok_inversion env fs channels localPath specs subdirs index verify
        patch progress res h
    obtain ⟨body, hb, hread⟩ :=
      fetchAll_written env (_ensure_list channels) _ _ _ _ hfetch subdir hsub
    refine ⟨body, fsMid, hb, hfetch, hread, ?_⟩
    rw [hfs]
    exact downloadAll_read_isSome env _ verify _ _ _ (by rw [hread]; rfl)
  · rintro ⟨subdir, hsub, hbad⟩ res h
    obtain ⟨added, removed, fsMid, _, hfetch, _, _, _, _⟩ :=
      sync_ok_inversion env fs channels localPath specs subdirs index verify
        patch progress res h
    obtain ⟨body, hb, _⟩ :=
      fetchAll_written env (_ensure_list channels) _ _ _ _ hfetch subdir hsub
    exact hbad body hb

/-! ## Claim C8: downloads happen in ascending filename order -/

/-- C8: the records a successful `sync` downloads are exactly the added
records of the diff, passed to `download_package` in ascending filename
order: the download list is a permutation of the added set, sorted by
filename, so a record whose filename strictly precedes another's is
downloaded strictly earlier. -/
theorem sync_download_order (env : CondaEnv) (fs : FileSystem) (channels : PyVal)
    (localPath : List String) (specs : PyVal) (subdirs : Option PyVal)
    (index verify : Bool) (patch : List String) (progress : Bool) :
    ∀ res, sync env fs channels localPath specs subdirs index verify patch progress
        = .ok res →
      ∀ added removed,
        diff env localPath (.list (_ensure_list channels)) specs
            (some (.list (_ensure_subdirs env subdirs))) = .ok (added, removed) →
        res.downloads.Perm added
        ∧ res.downloads.Pairwise (fun a b => a.fn ≤ b.fn)
        ∧ ∀ (i j : Fin res.downloads.length),
            (res.downloads.get i).fn < (res.downloads.get j).fn → i < j := by
  intro res h added removed hdiff
  obtain ⟨added', removed', fsMid, hdiff', _, hdl, _, _, _⟩ :=
    sync_ok_inversion env fs channels localPath specs subdirs index verify
      patch progress res h
  rw [hdiff] at hdiff'
  injection hdiff' with hpr
  obtain ⟨rfl, rfl⟩ : added = added' ∧ removed = removed' := Prod.mk.injEq .. ▸ hpr
  have htrans : ∀ (a b c : PackageRecord),
      decide (a.fn ≤ b.fn) = true → decide (b.fn ≤ c.fn) = true →
      decide (a.fn ≤ c.fn) = true := by
    intro a b c hab hbc
    simp only [decide_eq_true_eq] at hab hbc ⊢
    exact le_trans hab hbc
  have htotal : ∀ (a b : PackageRecord),
      (decide (a.fn ≤ b.fn) || decide (b.fn ≤ a.fn)) = true := by
    intro a b
    simpa using le_total a.fn b.fn
  have hsorted : res.downloads.Pairwise (fun a b => a.fn ≤ b.fn) := by
    rw [hdl]
    exact (List.sorted_mergeSort htrans htotal added).imp
      (fun hab => by simpa using hab)
  refine ⟨?_, hsorted, ?_⟩
  · rw [hdl]
    exact List.mergeSort_perm added _
  · intro i j hlt
    by_contra hnot
    push_neg at hnot
    rcases lt_or_eq_of_le hnot with hji | hji
    · have hle := (List.pairwise_iff_get.1 hsorted) j i hji
      exact absurd hlt (not_lt.2 hle)
    · rw [hji] at hlt
      exact lt_irrefl _ hlt

/-! ## Claim C1: `diff` and the channel-unavailable condition -/

/-- C1: contrary to the claim, `diff` does not recover from the
channel-unavailable condition.  The `try/except UnavailableInvalidChannel`
in the source wraps only the creation of the `iterate` generator, which
defers all execution, so the exception is raised inside `compare_records`
(when the generator is consumed) and propagates out of `diff` instead of
being treated as "zero local records". -/
theorem diff_propagates_unavailable (env : CondaEnv) (localPath : List String)
    (upstream specs : PyVal) (subdirs : Option PyVal)
    (h : env.iterChannels [env.pathToUri localPath] (_ensure_subdirs env subdirs)
      = .error .unavailableInvalidChannel) :
    diff env localPath upstream specs subdirs = .error .unavailableInvalidChannel
    ∧ ∀ pr, diff env localPath upstream specs subdirs ≠ .ok pr := by
  have hd : diff env localPath upstream specs subdirs
      = .error .unavailableInvalidChannel := by
    simp only [diff, iterate]
    rw [show _ensure_list (PyVal.str (env.pathToUri localPath))
        = [env.pathToUri localPath] from rfl,
      show ∀ l, _ensure_subdirs env (some (PyVal.list l)) = l from fun _ => rfl,
      h]
  refine ⟨hd, ?_⟩
  intro pr hpr
  rw [hd] at hpr
  cases hpr

/-! ## Concrete witnesses -/

/-- An environment whose channel enumeration raises
`UnavailableInvalidChannel` when consumed. -/
def badLocalEnv : CondaEnv :=
  { okEnv with iterChannels := fun _ _ => .error .unavailableInvalidChannel }

/-- C1 witness: at a concrete environment whose local-channel enumeration
raises `UnavailableInvalidChannel`, `diff` propagates the error instead of
returning the upstream/removed pair. -/
theorem diff_propagates_unavailable_witness :
    diff badLocalEnv ["local"] (.str "c") (.str "spec") none
      = .error .unavailableInvalidChannel :=
  (diff_propagates_unavailable badLocalEnv ["local"] (.str "c") (.str "spec")
    none rfl).1

/-- The C3 witness filesystem: every destination directory already exists
under the local mirror. -/
def c3wfs : FileSystem :=
  ⟨[(["p", "noarch", "x"], [5])],
   [["p"], ["p", "noarch"], ["loc"], ["loc", "noarch"]]⟩

/-- C3 witness: a concrete merge with all destination directories in place
copies the patch file to the identical relative path with identical bytes. -/
theorem merge_preserves_patch_content_witness :
    ∃ fs' call, merge okEnv c3wfs ["loc"] ["p"] true false = .ok (fs', call)
      ∧ ∀ pc ∈ globFiles c3wfs ["p"],
          fs'.read (["loc"] ++ pc.1.drop (["p"] : List String).length) = some pc.2 :=
  merge_preserves_patch_content okEnv c3wfs ["loc"] ["p"] true false
    (by decide) (by decide) (by decide)

/-- C5 witness: the concrete merge of the C5 filesystem, where the index
call carries no patch generator and the original progress flag. -/
theorem merge_update_index_empty_subdirs_witness :
    ∃ call, merge okEnv c5fs ["l"] ["p"] true false = .ok (c5merged, some call)
      ∧ call.target = ["l"] ∧ call.patchGenerator = none
      ∧ call.progress = false :=
  merge_update_index_empty_subdirs okEnv c5fs ["l"] ["p"] false c5merged (by rfl)

/-- The result of a concrete `sync` run writing into a patch directory. -/
def syncRes4 : SyncResult :=
  match sync okEnv ⟨[], []⟩ (.list ["c"]) ["local"] (.str "spec") none true true
      ["p"] false with
  | .ok res => res
  | .error _ => ⟨⟨[], []⟩, [], none⟩

/-- C4 witness: the concrete patch-directed `sync` run succeeds, skips the
index rebuild and creates the patch directory. -/
theorem sync_patch_frame_witness :
    sync okEnv ⟨[], []⟩ (.list ["c"]) ["local"] (.str "spec") none true true
      ["p"] false = .ok syncRes4
    ∧ syncRes4.indexCall = none ∧ ["p"] ∈ syncRes4.fs.dirs := by
  have h : sync okEnv ⟨[], []⟩ (.list ["c"]) ["local"] (.str "spec") none true true
      ["p"] false = .ok syncRes4 := by rfl
  have h2 := (sync_patch_frame okEnv ⟨[], []⟩ (.list ["c"]) ["local"] (.str "spec")
      none true true ["p"] false syncRes4 h).1 (by decide)
  exact ⟨h, h2.1, h2.2.1⟩

/-- C8 witness: the concrete `sync` run downloads exactly the added record
set, in filename-sorted order. -/
theorem sync_download_order_witness :
    sync okEnv ⟨[], []⟩ (.list ["c"]) ["local"] (.str "spec") none true true
      ["p"] false = .ok syncRes4
    ∧ syncRes4.downloads.Pairwise (fun a b => a.fn ≤ b.fn)
    ∧ syncRes4.downloads.Perm [r0] := by
  have h : sync okEnv ⟨[], []⟩ (.list ["c"]) ["local"] (.str "spec") none true true
      ["p"] false = .ok syncRes4 := by rfl
  have hd : diff okEnv ["local"] (.list (_ensure_list (.list ["c"]))) (.str "spec")
      (some (.list (_ensure_subdirs okEnv none))) = .ok ([r0], []) := by rfl
  have h2 := sync_download_order okEnv ⟨[], []⟩ (.list ["c"]) ["local"] (.str "spec")
      none true true ["p"] false syncRes4 h [r0] [] hd
  exact ⟨h, h2.2.1, h2.1⟩

/-- The C10 counterexample environment: the JSON reopen/rewrite path leaves
bytes that differ from the plain write, as `json.dump` over `seek(0)`
without truncation may (reformatting, trailing bytes). -/
def c10env : CondaEnv := { okEnv with jsonAppendRemove := fun b _ => b ++ [0] }

/-- The file state produced by `fetch_patch_instructions` with an empty
iterator bound to `packages_to_remove`. -/
def c10fsIter : FileSystem :=
  match fetch_patch_instructions c10env "c" ["d"] "s" (some (.iterator []))
      ⟨[], []⟩ with
  | .ok fs => fs
  | .error _ => ⟨[], []⟩

/-- The file state produced by `fetch_patch_instructions` with
`packages_to_remove` absent. -/
def c10fsNone : FileSystem :=
  match fetch_patch_instructions c10env "c" ["d"] "s" none ⟨[], []⟩ with
  | .ok fs => fs
  | .error _ => ⟨[], []⟩

/-- C10 counterexample: binding `packages_to_remove` to an empty iterator -
a legitimate empty iterable, for which Python's `if packages_to_remove:` is
truthy - makes `fetch_patch_instructions` reopen the written file and
rewrite it through the `json.load`/`json.dump` round trip, so the call does
not behave identically to the absent-argument call: here the rewritten file
differs from the upstream body that the absent-argument call leaves in
place. -/
theorem fetch_patch_instructions_empty_iterator_counterexample :
    fetch_patch_instructions c10env "c" ["d"] "s" (some (.iterator [])) ⟨[], []⟩
      = .ok c10fsIter
    ∧ c10fsIter.read ["d", "s", "patch_instructions.json"] = some [123, 0]
    ∧ fetch_patch_instructions c10env "c" ["d"] "s" none ⟨[], []⟩ = .ok c10fsNone
    ∧ c10fsNone.read ["d", "s", "patch_instructions.json"] = some [123]
    ∧ fetch_patch_instructions c10env "c" ["d"] "s" (some (.iterator [])) ⟨[], []⟩
      ≠ fetch_patch_instructions c10env "c" ["d"] "s" none ⟨[], []⟩ := by
  refine ⟨by rfl, by rfl, by rfl, by rfl, ?_⟩
  intro h
  rw [show fetch_patch_instructions c10env "c" ["d"] "s" (some (.iterator []))
        ⟨[], []⟩ = .ok c10fsIter from by rfl,
    show fetch_patch_instructions c10env "c" ["d"] "s" none ⟨[], []⟩
        = .ok c10fsNone from by rfl] at h
  injection h with h
  have hr : c10fsIter.read ["d", "s", "patch_instructions.json"]
      = c10fsNone.read ["d", "s", "patch_instructions.json"] := by rw [h]
  rw [show c10fsIter.read ["d", "s", "patch_instructions.json"]
        = some [123, 0] from by rfl,
    show c10fsNone.read ["d", "s", "patch_instructions.json"]
        = some [123] from by rfl] at hr
  simp at hr

end CondaLocal
